import Mathlib

/-!
Shallow embedding of `onnxruntime/python/tools/quantization/quant_utils.py`
(quantization parameter computation and data-transform engine).

Modelling conventions:
* Python/numpy floating-point values are idealised as rationals `ℚ`.
  Values that the code can make non-finite (NaN, ±inf) are modelled by the
  small wrapper type `PFloat` below; they arise from `numpy.std` on an empty
  array and from division by a zero scale.
* Python exceptions are modelled with `Except QuantErr`; each `raise` in the
  source becomes one `QuantErr` constructor carrying the data that the
  exception message interpolates.
* Both Python's builtin `round` and numpy's elementwise `.round()` round
  half to even; both are modelled by `roundHalfEven`.
* `numpy.finfo(numpy.float32).tiny` is the smallest positive normal
  float32, `2 ^ (-126)`.
-/

attribute [local semireducible] Rat.add Rat.sub Rat.mul Rat.inv

set_option maxRecDepth 100000

/-- The subset of `onnx.TensorProto` element types handled by the module:
INT8/UINT8/INT16/UINT16 and the narrow float kind FLOAT8E4M3FN. -/
inductive TensorProto
  | INT8
  | UINT8
  | INT16
  | UINT16
  | FLOAT8E4M3FN
deriving DecidableEq, Fintype, Repr

/-- Errors raised by the module; one constructor per `raise` site, with the
fields each exception message interpolates. -/
inductive QuantErr
  | invalidQminQmax (qmin qmax : ℤ)
  | zeroDivisionScale
  | notImplementedFloat8Range
  | unexpectedDataType
  | invalidZeroPointF8 (zp : ℤ)
  | unsupportedReduceRangeF8
  | unsupportedElementType
  | producedNaN (dataMin dataMax : ℚ) (qdMin qdMax : ℕ)
deriving DecidableEq, Repr

/-- A Python/numpy float value: a finite rational, NaN, or a signed infinity. -/
inductive PFloat
  | fin (q : ℚ)
  | nan
  | inf
  | ninf
deriving DecidableEq, Repr

/-- Output buffer of the transform: integer values tagged with their storage
dtype, or raw bytes of the narrow-float custom dtype. -/
inductive QBuffer
  | ints (dtype : TensorProto) (vals : List ℤ)
  | f8 (bytes : List ℕ)
deriving DecidableEq, Repr

deriving instance DecidableEq for Except

/-- Table `ONNX_INT_TYPE_RANGE` of the source: full native ranges. -/
def ONNX_INT_TYPE_RANGE : TensorProto → Option (ℤ × ℤ)
  | .UINT8 => some (0, 255)
  | .INT8 => some (-128, 127)
  | .UINT16 => some (0, 65535)
  | .INT16 => some (-32768, 32767)
  | .FLOAT8E4M3FN => none

/-- Table `ONNX_INT_TYPE_SYMMETRIC_RANGE` of the source (int8/int16 only). -/
def ONNX_INT_TYPE_SYMMETRIC_RANGE : TensorProto → Option (ℤ × ℤ)
  | .INT8 => some (-127, 127)
  | .INT16 => some (-32767, 32767)
  | _ => none

/-- Table `ONNX_INT_TYPE_REDUCED_RANGE` of the source. -/
def ONNX_INT_TYPE_REDUCED_RANGE : TensorProto → Option (ℤ × ℤ)
  | .UINT8 => some (0, 127)
  | .INT8 => some (-64, 64)
  | .UINT16 => some (0, 32767)
  | .INT16 => some (-16384, 16384)
  | .FLOAT8E4M3FN => none

/-- Source `get_qmin_qmax_for_qType`: raises for FLOAT8E4M3FN, otherwise the
reduced table wins, then the symmetric table when the kind is in it, else the
full table; a missing entry raises ValueError. -/
def get_qmin_qmax_for_qType (qType : TensorProto) (reduce_range : Bool := false)
    (symmetric : Bool := false) : Except QuantErr (ℤ × ℤ) :=
  if qType = .FLOAT8E4M3FN then .error .notImplementedFloat8Range
  else
    let qrange :=
      if reduce_range then ONNX_INT_TYPE_REDUCED_RANGE qType
      else if symmetric ∧ (ONNX_INT_TYPE_SYMMETRIC_RANGE qType).isSome then
        ONNX_INT_TYPE_SYMMETRIC_RANGE qType
      else ONNX_INT_TYPE_RANGE qType
    match qrange with
    | none => .error .unexpectedDataType
    | some r => .ok r

/-- Round half to even (the convention of Python's builtin `round` and of
numpy's elementwise `.round()`). -/
def roundHalfEven (q : ℚ) : ℤ :=
  let f := ⌊q⌋
  let frac := q - f
  if frac < 1 / 2 then f
  else if 1 / 2 < frac then f + 1
  else if f % 2 = 0 then f else f + 1

/-- Smallest positive normal float32, `numpy.finfo(numpy.float32).tiny`. -/
def float32_tiny : ℚ := 1 / 2 ^ 126

/-- Source `compute_scale_zp`.  The `qmax = qmin` guard models the
`ZeroDivisionError` Python raises when dividing a float by `float(0)`
(every claim assumes `qmin < qmax`, so the branch is never exercised). -/
def compute_scale_zp (rmin rmax : ℚ) (qmin qmax : ℤ) (symmetric : Bool := false) :
    Except QuantErr (ℤ × ℚ) :=
  if qmin > 0 ∨ qmax < 0 then .error (.invalidQminQmax qmin qmax)
  else
    let rmin1 := min rmin 0
    let rmax1 := max rmax 0
    let absmax := max |rmin1| |rmax1|
    let rmin2 := if symmetric then -absmax else rmin1
    let rmax2 := if symmetric then absmax else rmax1
    if qmax = qmin then .error .zeroDivisionScale
    else
      let scale := (rmax2 - rmin2) / ((qmax - qmin : ℤ) : ℚ)
      if scale < float32_tiny then .ok (0, 1)
      else .ok (roundHalfEven ((qmin : ℚ) - rmin2 / scale), scale)

/-- Division with IEEE-754 special-value behaviour, used where numpy divides
arrays/scalars (numpy division does not raise on zero divisors). -/
def pdiv : PFloat → PFloat → PFloat
  | .nan, _ => .nan
  | .fin _, .nan => .nan
  | .inf, .nan => .nan
  | .ninf, .nan => .nan
  | .fin a, .fin b =>
      if b = 0 then (if a = 0 then .nan else if 0 < a then .inf else .ninf)
      else .fin (a / b)
  | .fin _, .inf => .fin 0
  | .fin _, .ninf => .fin 0
  | .inf, .fin b => if 0 ≤ b then .inf else .ninf
  | .ninf, .fin b => if 0 ≤ b then .ninf else .inf
  | .inf, .inf => .nan
  | .inf, .ninf => .nan
  | .ninf, .inf => .nan
  | .ninf, .ninf => .nan

/-- Elementwise numpy `.round()` (half to even; specials pass through). -/
def pRound : PFloat → PFloat
  | .fin q => .fin ((roundHalfEven q : ℤ) : ℚ)
  | p => p

/-- Adding the integer zero point, numpy broadcast `+ zero_point`. -/
def pAddZ : PFloat → ℤ → PFloat
  | .fin q, z => .fin (q + (z : ℚ))
  | p, _ => p

/-- Elementwise `numpy.clip(x, lo, hi)`, which computes
`min(hi, max(lo, x))`; infinities clip to the corresponding bound and NaN
passes through. -/
def pClip : PFloat → ℚ → ℚ → PFloat
  | .fin q, lo, hi => .fin (min hi (max lo q))
  | .nan, _, _ => .nan
  | .inf, _, hi => .fin hi
  | .ninf, lo, hi => .fin (min hi lo)

/-- Truncation toward zero, the float-to-integer conversion of a C cast. -/
def truncQ (q : ℚ) : ℤ := if 0 ≤ q then ⌊q⌋ else ⌈q⌉

/-- Bit width of the native storage dtype of a kind. -/
def dtypeBits : TensorProto → ℕ
  | .INT8 => 8
  | .UINT8 => 8
  | .INT16 => 16
  | .UINT16 => 16
  | .FLOAT8E4M3FN => 8

/-- Signedness of the native storage dtype of a kind. -/
def dtypeSigned : TensorProto → Bool
  | .INT8 => true
  | .UINT8 => false
  | .INT16 => true
  | .UINT16 => false
  | .FLOAT8E4M3FN => false

/-- Two's-complement / modular wrap of an integer into the storage dtype,
the effect of numpy `astype` on an in-int64-range value. -/
def wrapCast (t : TensorProto) (x : ℤ) : ℤ :=
  let m : ℤ := 2 ^ dtypeBits t
  let r := x % m
  if dtypeSigned t ∧ 2 ^ (dtypeBits t - 1) ≤ r then r - m else r

/-- Numpy `astype` to an integer dtype: truncate toward zero, then wrap.
NaN and infinities have platform-defined integer casts; the common x86
result (low bits of INT64_MIN, which are 0 for widths 8/16) is used, and no
theorem below depends on this branch. -/
def pCastInt (t : TensorProto) : PFloat → ℤ
  | .fin q => wrapCast t (truncQ q)
  | _ => 0

/-- Modelled from the spec: `onnx.numpy_helper.float8e4m3_to_float32`, the
decoder of the FLOAT8E4M3FN format, which is not part of this repository.
Bit layout 1-4-3 with bias 7; the two patterns `S.1111.111` decode to NaN
(`none`); the format has no infinities. -/
def float8e4m3_to_float32 (i : ℕ) : Option ℚ :=
  let s := i / 128
  let e := (i / 8) % 16
  let m := i % 8
  if e = 15 ∧ m = 7 then none
  else
    let mag : ℚ :=
      if e = 0 then (m : ℚ) / 512
      else (((8 + m : ℕ) : ℚ) / 8) * (2 : ℚ) ^ ((e : ℤ) - 7)
    some (if s = 1 then -mag else mag)

/-- The cached value `FLOAT8_DISTRIBUTIONS[TensorProto.FLOAT8E4M3FN]` of the
source: all finite decodings of the 256 bit patterns, in pattern order. -/
def FLOAT8_DISTRIBUTION_E4M3FN : List ℚ :=
  (List.range 256).filterMap float8e4m3_to_float32

/-- Finite FLOAT8E4M3FN values paired with their byte encodings. -/
def f8FinitePairs : List (ℕ × ℚ) :=
  (List.range 256).filterMap fun i =>
    (float8e4m3_to_float32 i).map fun v => (i, v)

/-- Modelled from the spec: the byte the external elementwise quantize
kernel (`QuantizeLinear` to FLOAT8E4M3FN through the onnx reference
evaluator, not part of this repository) produces for a finite input —
the nearest representable value, ties to even mantissa, out-of-range
values saturating to the extreme finite values. -/
def nearestF8Byte (x : ℚ) : ℕ :=
  (f8FinitePairs.foldl
    (fun best p =>
      if |x - p.2| < |x - best.2| ∨
          (|x - p.2| = |x - best.2| ∧ p.1 % 2 = 0 ∧ best.1 % 2 = 1)
      then p else best)
    (0, 0)).1

/-- Modelled from the spec: full elementwise encode of the external kernel,
extended to the special values (NaN encodes to `0x7f`; with the default
`saturate=1`, the infinities arising from a zero scale saturate to
`±448`, bytes `0x7e`/`0xfe`). -/
def f8Encode : PFloat → ℕ
  | .fin q => nearestF8Byte q
  | .nan => 127
  | .inf => 126
  | .ninf => 254

/-- Python `min` over a non-empty list (the `[]` default is never used: every
call site guards with `len(data)`). -/
def pythonMin : List ℚ → ℚ
  | [] => 0
  | x :: xs => xs.foldl min x

/-- Python `max` over a non-empty list. -/
def pythonMax : List ℚ → ℚ
  | [] => 0
  | x :: xs => xs.foldl max x

/-- Minimum of a byte list (`quantized_data.min()` in the NaN-guard message;
only evaluated on non-empty buffers). -/
def natMin : List ℕ → ℕ
  | [] => 0
  | x :: xs => xs.foldl Nat.min x

/-- Maximum of a byte list. -/
def natMax : List ℕ → ℕ
  | [] => 0
  | x :: xs => xs.foldl Nat.max x

/-- Newton iteration for the integer square root (structural recursion on a
fuel parameter, so that it evaluates inside the kernel). -/
def isqrtGo (n : ℕ) : ℕ → ℕ → ℕ
  | 0, g => g
  | fuel + 1, g =>
      let g1 := (g + n / g) / 2
      if g1 < g then isqrtGo n fuel g1 else g

/-- Floor integer square root (Newton from `n / 2 + 1`, which converges in
far fewer than 256 steps for every input arising here). -/
def isqrt (n : ℕ) : ℕ := if n ≤ 1 then n else isqrtGo n 256 (n / 2 + 1)

/-- Floor square root of a non-negative rational, `sqrt (n / d) = sqrt (n * d) / d`.
Exact whenever `num * den` is a perfect square — the only inputs any theorem
below depends on numerically; elsewhere it is a deterministic stand-in for
the float64 square root of the external numeric library. -/
def ratSqrt (q : ℚ) : ℚ :=
  if q ≤ 0 then 0 else ((isqrt (q.num.toNat * q.den) : ℕ) : ℚ) / ((q.den : ℕ) : ℚ)

/-- Population variance (`ddof = 0`, the numpy default). -/
def numpy_var (l : List ℚ) : ℚ :=
  let n : ℚ := (l.length : ℚ)
  let m := l.sum / n
  (l.map fun x => (x - m) ^ 2).sum / n

/-- Modelled from the spec: `numpy.std`, the external numeric library's
standard deviation; on an empty array numpy emits a RuntimeWarning and
returns NaN. -/
def numpy_std (l : List ℚ) : PFloat :=
  if l.isEmpty then .nan else .fin (ratSqrt (numpy_var l))

/-- Source `compute_scale_zp_float8`: zero point 0 and scale
`std / numpy.std(FLOAT8_DISTRIBUTIONS[element_type])`; any other element
type raises ValueError. -/
def compute_scale_zp_float8 (element_type : TensorProto) (std : PFloat) :
    Except QuantErr (ℤ × PFloat) :=
  match element_type with
  | .FLOAT8E4M3FN =>
      let std_f8 := numpy_std FLOAT8_DISTRIBUTION_E4M3FN
      .ok (0, pdiv std std_f8)
  | _ => .error .unsupportedElementType

/-- The `cliplow = max(qmin, low) if low is not None else qmin` line. -/
def cliplowOf (qmin : ℤ) : Option ℚ → ℚ
  | some l => max (qmin : ℚ) l
  | none => (qmin : ℚ)

/-- The `cliphigh = min(qmax, high) if high is not None else qmax` line. -/
def cliphighOf (qmax : ℤ) : Option ℚ → ℚ
  | some h => min (qmax : ℚ) h
  | none => (qmax : ℚ)

/-- Source `quantize_nparray`.  The leading assert (`qType` present in
`ONNX_TYPE_TO_NP_TYPE`) holds for all five modelled kinds.  The float8
branch requires a zero `zero_point` and delegates to the external kernel;
the integer branch divides, rounds, adds the zero point, clips to the
`reduce_range=False, symmetric=True` range intersected with the optional
`low`/`high`, and casts to the storage dtype. -/
def quantize_nparray (qType : TensorProto) (arr : List ℚ) (scale : PFloat)
    (zero_point : ℤ) (low high : Option ℚ) : Except QuantErr QBuffer :=
  match qType with
  | .FLOAT8E4M3FN =>
      if zero_point ≠ 0 then .error (.invalidZeroPointF8 zero_point)
      else .ok (.f8 (arr.map fun x => f8Encode (pdiv (.fin x) scale)))
  | t =>
      match get_qmin_qmax_for_qType t false true with
      | .error e => .error e
      | .ok (qmin, qmax) =>
          let cliplow := cliplowOf qmin low
          let cliphigh := cliphighOf qmax high
          .ok (.ints t (arr.map fun x =>
            pCastInt t (pClip (pAddZ (pRound (pdiv (.fin x) scale)) zero_point)
              cliplow cliphigh)))

/-- Bytes of a buffer (`.astype(numpy.uint8).ravel()`; integer buffers never
reach the NaN guard). -/
def qbytes : QBuffer → List ℕ
  | .f8 bs => bs
  | .ints _ _ => []

/-- The NaN guard `any((quantized_data.astype(numpy.uint8).ravel() & 127) == 127)`. -/
def hasNaNF8 (qd : QBuffer) : Bool :=
  (qbytes qd).any fun b => b % 128 = 127

/-- Source `quantize_data`: computes `rmin`/`rmax`, dispatches on the kind,
derives parameters and transforms, returning
`(rmin, rmax, zero_point, scale, quantized_data)`.  Kinds other than the
five modelled ones (which would raise the final ValueError) do not exist in
the embedding. -/
def quantize_data (data : List ℚ) (qType : TensorProto) (symmetric : Bool)
    (reduce_range : Bool := false) :
    Except QuantErr (ℚ × ℚ × ℤ × PFloat × QBuffer) :=
  let rmin : ℚ := if data.isEmpty then 0 else pythonMin data
  let rmax : ℚ := if data.isEmpty then 0 else pythonMax data
  match qType with
  | .FLOAT8E4M3FN =>
      if reduce_range then .error .unsupportedReduceRangeF8
      else
        match compute_scale_zp_float8 .FLOAT8E4M3FN (numpy_std data) with
        | .error e => .error e
        | .ok (zero_point, scale) =>
            match quantize_nparray .FLOAT8E4M3FN data scale zero_point none none with
            | .error e => .error e
            | .ok qd =>
                if hasNaNF8 qd then
                  .error (.producedNaN (pythonMin data) (pythonMax data)
                    (natMin (qbytes qd)) (natMax (qbytes qd)))
                else .ok (rmin, rmax, zero_point, scale, qd)
  | t =>
      if data.isEmpty then
        match quantize_nparray t data (.fin 1) 0 none none with
        | .error e => .error e
        | .ok qd => .ok (rmin, rmax, 0, .fin 1, qd)
      else
        match get_qmin_qmax_for_qType t reduce_range symmetric with
        | .error e => .error e
        | .ok (qmin, qmax) =>
            match compute_scale_zp rmin rmax qmin qmax symmetric with
            | .error e => .error e
            | .ok (zero_point, scale) =>
                match quantize_nparray t data (.fin scale) zero_point none none with
                | .error e => .error e
                | .ok qd => .ok (rmin, rmax, zero_point, .fin scale, qd)

/-!
Claim-side definitions: restatements of the specification's literal tables
and formulas, to be compared with the source-derived definitions above.
-/

/-- Specification table "Full": uint8 `[0,255]`, int8 `[-128,127]`,
uint16 `[0,65535]`, int16 `[-32768,32767]`. -/
def specFullRange : TensorProto → Option (ℤ × ℤ)
  | .UINT8 => some (0, 255)
  | .INT8 => some (-128, 127)
  | .UINT16 => some (0, 65535)
  | .INT16 => some (-32768, 32767)
  | .FLOAT8E4M3FN => none

/-- Specification table "Symmetric" (int8/int16 only): int8 `[-127,127]`,
int16 `[-32767,32767]`. -/
def specSymmetricRange : TensorProto → Option (ℤ × ℤ)
  | .INT8 => some (-127, 127)
  | .INT16 => some (-32767, 32767)
  | _ => none

/-- Specification table "Reduced": uint8 `[0,127]`, int8 `[-64,64]`,
uint16 `[0,32767]`, int16 `[-16384,16384]`. -/
def specReducedRange : TensorProto → Option (ℤ × ℤ)
  | .UINT8 => some (0, 127)
  | .INT8 => some (-64, 64)
  | .UINT16 => some (0, 32767)
  | .INT16 => some (-16384, 16384)
  | .FLOAT8E4M3FN => none

/-- Specification precedence: `reduce_range` wins over `symmetric`; the full
native range is used when neither applies (also when `symmetric` is set but
the kind has no symmetric entry). -/
def specRangeResult (t : TensorProto) (reduce_range symmetric : Bool) :
    Option (ℤ × ℤ) :=
  if reduce_range then specReducedRange t
  else if symmetric then
    match specSymmetricRange t with
    | some p => some p
    | none => specFullRange t
  else specFullRange t

/-- The claim-side table as an `Except`, for literal comparison with
`get_qmin_qmax_for_qType` on the integer kinds. -/
def specRangeOk (t : TensorProto) (reduce_range symmetric : Bool) :
    Except QuantErr (ℤ × ℤ) :=
  match specRangeResult t reduce_range symmetric with
  | some p => .ok p
  | none => .error .unexpectedDataType

/-- Boolean check `qmin ≤ 0 ≤ qmax` on a range-lookup result. -/
def rangeBoundsB : Except QuantErr (ℤ × ℤ) → Bool
  | .ok p => decide (p.1 ≤ 0 ∧ 0 ≤ p.2)
  | .error _ => true

/-- Boolean check `qmin ≤ 0 ≤ qmax` and `qmin < qmax` on a range-lookup
result (every table entry is a non-degenerate zero-containing range). -/
def rangeSoundB : Except QuantErr (ℤ × ℤ) → Bool
  | .ok p => decide (p.1 ≤ 0 ∧ 0 ≤ p.2 ∧ p.1 < p.2)
  | .error _ => true

/-- The specification's scale formula: `(rmax - rmin) / (qmax - qmin)` after
zero-extension and optional symmetrization of the real range. -/
def scaleOfRanges (rmin rmax : ℚ) (qmin qmax : ℤ) (symmetric : Bool) : ℚ :=
  let r0 := min rmin 0
  let r1 := max rmax 0
  let a := if symmetric then -(max |r0| |r1|) else r0
  let b := if symmetric then max |r0| |r1| else r1
  (b - a) / ((qmax - qmin : ℤ) : ℚ)

/-- The specification's integer transform, per element:
`q = round(x / scale) + zero_point`, clipped to `[lo, hi]`, cast to the
kind's storage dtype. -/
def specIntTransformElem (t : TensorProto) (s : ℚ) (zp : ℤ) (lo hi : ℚ) (x : ℚ) : ℤ :=
  wrapCast t (truncQ (min hi (max lo (((roundHalfEven (x / s) : ℤ) : ℚ) + (zp : ℚ)))))

/-- The bytes the narrow-float path of `quantize_data` produces: each
element divided by the scale `std(data) / std_f8` and encoded by the
elementwise kernel. -/
def f8TransformBytes (data : List ℚ) : List ℕ :=
  data.map fun x =>
    f8Encode (pdiv (.fin x) (pdiv (numpy_std data) (numpy_std FLOAT8_DISTRIBUTION_E4M3FN)))

/-!
Helper lemmas shared by the claim theorems.
-/

/-- An integer lower bound passes through round-half-to-even. -/
theorem le_roundHalfEven (n : ℤ) (q : ℚ) (h : (n : ℚ) ≤ q) :
    n ≤ roundHalfEven q := by
  have hf : n ≤ ⌊q⌋ := Int.le_floor.mpr h
  simp only [roundHalfEven]
  split_ifs <;> omega

/-- An integer upper bound passes through round-half-to-even. -/
theorem roundHalfEven_le (n : ℤ) (q : ℚ) (h : q ≤ (n : ℚ)) :
    roundHalfEven q ≤ n := by
  have hc : ⌈q⌉ ≤ n := Int.ceil_le.mpr h
  have hfc : ⌊q⌋ ≤ ⌈q⌉ := Int.floor_le_ceil q
  simp only [roundHalfEven]
  split_ifs with h1 h2 h3
  · omega
  · by_contra hn
    have h3 : (n : ℚ) ≤ (⌊q⌋ : ℚ) := by exact_mod_cast by omega
    have h4 : (⌊q⌋ : ℚ) ≤ q := Int.floor_le q
    linarith
  · omega
  · have he : q - (⌊q⌋ : ℚ) = 1 / 2 := le_antisymm (not_lt.mp h2) (not_lt.mp h1)
    by_contra hn
    have h5 : (n : ℚ) ≤ (⌊q⌋ : ℚ) := by exact_mod_cast by omega
    linarith

/-- Behaviour of the tail of `compute_scale_zp` once the adjusted range
`[A, B]` contains zero: the result is well defined, the zero point lies in
`[qmin, qmax]` and the scale is positive. -/
theorem scale_zp_branch_spec (A B : ℚ) (qmin qmax : ℤ)
    (hA : A ≤ 0) (hB : 0 ≤ B) (h0 : qmin ≤ 0) (h1 : 0 ≤ qmax) (h2 : qmin < qmax) :
    ∃ z s,
      (if (B - A) / ((qmax - qmin : ℤ) : ℚ) < float32_tiny
        then (Except.ok (0, 1) : Except QuantErr (ℤ × ℚ))
        else .ok (roundHalfEven ((qmin : ℚ) - A / ((B - A) / ((qmax - qmin : ℤ) : ℚ))),
          (B - A) / ((qmax - qmin : ℤ) : ℚ))) = .ok (z, s) ∧
      qmin ≤ z ∧ z ≤ qmax ∧ 0 < s := by
  have hD : (0 : ℚ) < ((qmax - qmin : ℤ) : ℚ) := by
    have : (0 : ℤ) < qmax - qmin := by omega
    exact_mod_cast this
  by_cases hd : (B - A) / ((qmax - qmin : ℤ) : ℚ) < float32_tiny
  · exact ⟨0, 1, by rw [if_pos hd], h0, h1, one_pos⟩
  · have hst : float32_tiny ≤ (B - A) / ((qmax - qmin : ℤ) : ℚ) := not_lt.mp hd
    have htp : (0 : ℚ) < float32_tiny := by norm_num [float32_tiny]
    have hs : (0 : ℚ) < (B - A) / ((qmax - qmin : ℤ) : ℚ) := lt_of_lt_of_le htp hst
    refine ⟨_, _, by rw [if_neg hd], ?_, ?_, hs⟩
    · apply le_roundHalfEven
      have hdiv : A / ((B - A) / ((qmax - qmin : ℤ) : ℚ)) ≤ 0 :=
        div_nonpos_of_nonpos_of_nonneg hA hs.le
      linarith
    · apply roundHalfEven_le
      have hmul : (B - A) / ((qmax - qmin : ℤ) : ℚ) * ((qmax - qmin : ℤ) : ℚ) = B - A :=
        div_mul_cancel₀ _ (ne_of_gt hD)
      have h3 : -A ≤ (B - A) / ((qmax - qmin : ℤ) : ℚ) * ((qmax - qmin : ℤ) : ℚ) := by
        rw [hmul]; linarith
    
      have h4 : -A / ((B - A) / ((qmax - qmin : ℤ) : ℚ)) ≤ ((qmax - qmin : ℤ) : ℚ) :=
        (div_le_iff₀ hs).mpr (by linarith)
      have h5 : ((qmax - qmin : ℤ) : ℚ) = (qmax : ℚ) - (qmin : ℚ) := by push_cast; ring
      have h6 : (qmin : ℚ) - A / ((B - A) / ((qmax - qmin : ℤ) : ℚ)) =
          (qmin : ℚ) + -A / ((B - A) / ((qmax - qmin : ℤ) : ℚ)) := by ring
      rw [h6]
      linarith

/-- Master lemma for `compute_scale_zp`: under the (checked) precondition
`qmin ≤ 0 ≤ qmax` and a non-degenerate target range, the call succeeds for
arbitrary `rmin`, `rmax` (the zero-extension re-establishes
`rmin ≤ 0 ≤ rmax`), with zero point in `[qmin, qmax]` and positive scale. -/
theorem compute_scale_zp_spec (rmin rmax : ℚ) (qmin qmax : ℤ) (sym : Bool)
    (h0 : qmin ≤ 0) (h1 : 0 ≤ qmax) (h2 : qmin < qmax) :
    ∃ z s, compute_scale_zp rmin rmax qmin qmax sym = .ok (z, s) ∧
      qmin ≤ z ∧ z ≤ qmax ∧ 0 < s := by
  have hne : ¬(qmin > 0 ∨ qmax < 0) := by omega
  have hqq : ¬(qmax = qmin) := by omega
  have hr0 : min rmin 0 ≤ 0 := min_le_right rmin 0
  have hr1 : (0 : ℚ) ≤ max rmax 0 := le_max_right rmax 0
  cases sym with
  | false =>
      simp only [compute_scale_zp, if_neg hne, if_neg hqq, if_false, Bool.false_eq_true]
      exact scale_zp_branch_spec (min rmin 0) (max rmax 0) qmin qmax hr0 hr1 h0 h1 h2
  | true =>
      simp only [compute_scale_zp, if_neg hne, if_neg hqq, if_true]
      have hM : (0 : ℚ) ≤ max |min rmin 0| |max rmax 0| :=
        le_trans (abs_nonneg _) (le_max_left _ _)
      exact scale_zp_branch_spec (-(max |min rmin 0| |max rmax 0|))
        (max |min rmin 0| |max rmax 0|) qmin qmax (by linarith) hM h0 h1 h2

/-- Folding `min` never exceeds the initial accumulator. -/
theorem foldl_min_le_init (xs : List ℚ) (a : ℚ) : xs.foldl min a ≤ a := by
  induction xs generalizing a with
  | nil => simp [List.foldl]
  | cons x xs ih => exact le_trans (ih (min a x)) (min_le_left a x)

/-- Folding `min` is a lower bound of every element. -/
theorem foldl_min_le_mem (xs : List ℚ) (a y : ℚ) (h : y ∈ xs) :
    xs.foldl min a ≤ y := by
  induction xs generalizing a with
  | nil => cases h
  | cons x xs ih =>
      rcases List.mem_cons.mp h with rfl | hm
      · exact le_trans (foldl_min_le_init xs (min a y)) (min_le_right a y)
      · exact ih (min a x) hm

/-- Folding `min` lands on the accumulator or on a list element. -/
theorem foldl_min_mem (xs : List ℚ) (a : ℚ) :
    xs.foldl min a = a ∨ xs.foldl min a ∈ xs := by
  induction xs generalizing a with
  | nil => exact .inl rfl
  | cons x xs ih =>
      rcases ih (min a x) with h | h
      · rcases le_total a x with hax | hax
        · exact .inl (by rw [List.foldl_cons, h, min_eq_left hax])
        · exact .inr (by rw [List.foldl_cons, h, min_eq_right hax]; exact .head xs)
      · exact .inr (List.mem_cons_of_mem x h)

/-- Folding `max` is at least the initial accumulator. -/
theorem le_foldl_max_init (xs : List ℚ) (a : ℚ) : a ≤ xs.foldl max a := by
  induction xs generalizing a with
  | nil => simp [List.foldl]
  | cons x xs ih => exact le_trans (le_max_left a x) (ih (max a x))

/-- Folding `max` is an upper bound of every element. -/
theorem mem_le_foldl_max (xs : List ℚ) (a y : ℚ) (h : y ∈ xs) :
    y ≤ xs.foldl max a := by
  induction xs generalizing a with
  | nil => cases h
  | cons x xs ih =>
      rcases List.mem_cons.mp h with rfl | hm
      · exact le_trans (le_max_right a y) (le_foldl_max_init xs (max a y))
      · exact ih (max a x) hm

/-- Folding `max` lands on the accumulator or on a list element. -/
theorem foldl_max_mem (xs : List ℚ) (a : ℚ) :
    xs.foldl max a = a ∨ xs.foldl max a ∈ xs := by
  induction xs generalizing a with
  | nil => exact .inl rfl
  | cons x xs ih =>
      rcases ih (max a x) with h | h
      · rcases le_total a x with hax | hax
        · exact .inr (by rw [List.foldl_cons, h, max_eq_right hax]; exact .head xs)
        · exact .inl (by rw [List.foldl_cons, h, max_eq_left hax])
      · exact .inr (List.mem_cons_of_mem x h)

/-- `pythonMin` of a non-empty list is its least element. -/
theorem pythonMin_spec (x : ℚ) (xs : List ℚ) :
    pythonMin (x :: xs) ∈ x :: xs ∧ ∀ y ∈ x :: xs, pythonMin (x :: xs) ≤ y := by
  constructor
  · rcases foldl_min_mem xs x with h | h
    · show xs.foldl min x ∈ x :: xs
      rw [h]
      exact List.mem_cons_self x xs
    · exact List.mem_cons_of_mem x h
  · intro y hy
    rcases List.mem_cons.mp hy with rfl | hm
    · exact foldl_min_le_init xs y
    · exact foldl_min_le_mem xs x y hm

/-- `pythonMax` of a non-empty list is its greatest element. -/
theorem pythonMax_spec (x : ℚ) (xs : List ℚ) :
    pythonMax (x :: xs) ∈ x :: xs ∧ ∀ y ∈ x :: xs, y ≤ pythonMax (x :: xs) := by
  constructor
  · rcases foldl_max_mem xs x with h | h
    · show xs.foldl max x ∈ x :: xs
      rw [h]
      exact List.mem_cons_self x xs
    · exact List.mem_cons_of_mem x h
  · intro y hy
    rcases List.mem_cons.mp hy with rfl | hm
    · exact le_foldl_max_init xs y
    · exact mem_le_foldl_max xs x y hm

/-- Truncation toward zero stays inside any integer interval containing the
rational. -/
theorem truncQ_bounds (a b : ℤ) (w : ℚ) (h1 : (a : ℚ) ≤ w) (h2 : w ≤ (b : ℚ)) :
    a ≤ truncQ w ∧ truncQ w ≤ b := by
  unfold truncQ
  split_ifs with h
  · refine ⟨Int.le_floor.mpr h1, ?_⟩
    have := Int.floor_le_floor h2
    rwa [Int.floor_intCast] at this
  · refine ⟨?_, Int.ceil_le.mpr h2⟩
    have := Int.ceil_le_ceil h1
    rwa [Int.ceil_intCast] at this

/-- The int8 storage cast is the identity on `[-128, 127]`. -/
theorem wrapCast_int8_id (x : ℤ) (h1 : -128 ≤ x) (h2 : x ≤ 127) :
    wrapCast .INT8 x = x := by
  simp only [wrapCast, dtypeBits, dtypeSigned]
  norm_num
  split_ifs with hb <;> omega

/-- All range-table entries are zero-containing non-degenerate ranges. -/
theorem range_table_sound :
    ∀ (t : TensorProto) (rr sym : Bool),
      rangeSoundB (get_qmin_qmax_for_qType t rr sym) = true := by decide

/-!
Claim theorems.
-/

/-- C1 (counterexample): `quantize_data([1,2,3], INT8, symmetric=True)` does
NOT return `rmin = 0`: the returned `rmin` is `min(data) = 1` (zero is
forced into the range only inside `compute_scale_zp`, without affecting the
returned minimum). -/
theorem quantize_data_known_vector_counterexample :
    quantize_data [1, 2, 3] .INT8 true false =
      .ok (1, 3, 0, .fin (3 / 127), .ints .INT8 [42, 85, 127]) ∧ (1 : ℚ) ≠ 0 := by
  constructor
  · decide
  · decide

/-- C1 (amended): `quantize_data([1,2,3], INT8, symmetric=True)` returns
`rmin = 1` (the data minimum), `rmax = 3`, `zero_point = 0`,
`scale = 3/127`, and the quantized buffer `round([1,2,3] / scale)` clipped
to `[-127, 127]`, i.e. `[42, 85, 127]` as int8 values. -/
theorem quantize_data_known_vector :
    quantize_data [1, 2, 3] .INT8 true false =
      .ok (1, 3, 0, .fin (3 / 127),
        .ints .INT8 [roundHalfEven (1 / (3 / 127)), roundHalfEven (2 / (3 / 127)),
          roundHalfEven (3 / (3 / 127))]) ∧
    roundHalfEven (1 / (3 / 127)) = 42 ∧ roundHalfEven (2 / (3 / 127)) = 85 ∧
      roundHalfEven (3 / (3 / 127)) = 127 := by
  refine ⟨by decide, by decide, by decide, by decide⟩

/-- C3: `get_qmin_qmax_for_qType` realises exactly the specification's
literal tables with `reduce_range` taking precedence over `symmetric` and
the full native range used when neither applies, and every returned pair
satisfies `qmin ≤ 0 ≤ qmax`. -/
theorem get_qmin_qmax_table_exact :
    ∀ (t : TensorProto) (rr sym : Bool),
      (t ≠ .FLOAT8E4M3FN → get_qmin_qmax_for_qType t rr sym = specRangeOk t rr sym) ∧
      rangeBoundsB (get_qmin_qmax_for_qType t rr sym) = true := by decide

/-- Witness for C3 at the reduced int8 entry. -/
theorem get_qmin_qmax_table_exact_witness :
    get_qmin_qmax_for_qType .INT8 true false = specRangeOk .INT8 true false :=
  (get_qmin_qmax_table_exact .INT8 true false).1 (by decide)

/-- C5: for `rmin ≤ 0 ≤ rmax` and a zero-containing non-degenerate integer
range, the asymmetric solve returns a zero point within `[qmin, qmax]` and
a non-negative scale. -/
theorem compute_scale_zp_zero_point_in_range :
    ∀ (rmin rmax : ℚ) (qmin qmax : ℤ),
      rmin ≤ 0 → 0 ≤ rmax → qmin ≤ 0 → 0 ≤ qmax → qmin < qmax →
      ∃ z s, compute_scale_zp rmin rmax qmin qmax false = .ok (z, s) ∧
        qmin ≤ z ∧ z ≤ qmax ∧ 0 ≤ s := by
  intro rmin rmax qmin qmax _ _ h0 h1 h2
  obtain ⟨z, s, heq, hz1, hz2, hs⟩ := compute_scale_zp_spec rmin rmax qmin qmax false h0 h1 h2
  exact ⟨z, s, heq, hz1, hz2, hs.le⟩

/-- Witness for C5. -/
theorem compute_scale_zp_zero_point_in_range_witness :
    ∃ z s, compute_scale_zp (-1) 2 (-128) 127 false = .ok (z, s) ∧
      -128 ≤ z ∧ z ≤ 127 ∧ (0 : ℚ) ≤ s :=
  compute_scale_zp_zero_point_in_range (-1) 2 (-128) 127 (by norm_num) (by norm_num)
    (by decide) (by decide) (by decide)

/-- C6: whenever the scale computed from the zero-extended (and optionally
symmetrized) range is below the smallest positive normal float32, the solve
returns `zero_point = 0, scale = 1` without error; in particular
`compute_scale_zp(0, 0, 0, 255, symmetric=False) = (0, 1.0)`. -/
theorem compute_scale_zp_degenerate :
    (∀ (rmin rmax : ℚ) (qmin qmax : ℤ) (sym : Bool),
      qmin ≤ 0 → 0 ≤ qmax → qmin < qmax →
      scaleOfRanges rmin rmax qmin qmax sym < float32_tiny →
      compute_scale_zp rmin rmax qmin qmax sym = .ok (0, 1)) ∧
    compute_scale_zp 0 0 0 255 false = .ok (0, 1) := by
  constructor
  · intro rmin rmax qmin qmax sym h0 h1 h2 hdeg
    have hne : ¬(qmin > 0 ∨ qmax < 0) := by omega
    have hqq : ¬(qmax = qmin) := by omega
    simp only [compute_scale_zp, if_neg hne, if_neg hqq]
    simp only [scaleOfRanges] at hdeg
    rw [if_pos hdeg]
  · decide

/-- Witness for C6 at a tiny positive range. -/
theorem compute_scale_zp_degenerate_witness :
    compute_scale_zp 0 (1 / 2 ^ 200) 0 255 false = .ok (0, 1) :=
  compute_scale_zp_degenerate.1 0 (1 / 2 ^ 200) 0 255 false (by decide) (by decide)
    (by decide) (by decide)

/-- C9 (counterexample): on empty input the narrow-float kind does NOT
return `scale = 1.0`: `numpy.std([])` is NaN, so the returned scale is NaN
(while the call still succeeds with an empty buffer). -/
theorem quantize_data_empty_counterexample :
    quantize_data [] .FLOAT8E4M3FN false false = .ok (0, 0, 0, .nan, .f8 []) ∧
      (PFloat.nan : PFloat) ≠ .fin 1 := by
  constructor
  · decide
  · decide

/-- C9 (amended): `quantize_data([], kind, False)` returns
`(0, 0, 0, 1.0, empty integer buffer)` for the four integer kinds; for
FLOAT8E4M3FN it returns `rmin = rmax = 0`, `zero_point = 0` and an empty
byte buffer, but `scale = NaN` (the standard deviation of empty data), not
`1.0`. -/
theorem quantize_data_empty :
    (∀ t : TensorProto, t ≠ .FLOAT8E4M3FN →
      quantize_data [] t false false = .ok (0, 0, 0, .fin 1, .ints t [])) ∧
    quantize_data [] .FLOAT8E4M3FN false false = .ok (0, 0, 0, .nan, .f8 []) := by
  constructor
  · decide
  · decide

/-- Witness for C9 at the int8 kind. -/
theorem quantize_data_empty_witness :
    quantize_data [] .INT8 false false = .ok (0, 0, 0, .fin 1, .ints .INT8 []) :=
  quantize_data_empty.1 .INT8 (by decide)

/-- C10: `compute_scale_zp` is total over unordered and sign-unrestricted
real ranges: whenever `qmin ≤ 0 ≤ qmax` and `qmin < qmax`, the call returns
normally for every `rmin`, `rmax`. -/
theorem compute_scale_zp_total :
    ∀ (rmin rmax : ℚ) (qmin qmax : ℤ) (sym : Bool),
      qmin ≤ 0 → 0 ≤ qmax → qmin < qmax →
      ∃ r, compute_scale_zp rmin rmax qmin qmax sym = .ok r := by
  intro rmin rmax qmin qmax sym h0 h1 h2
  obtain ⟨z, s, heq, -, -, -⟩ := compute_scale_zp_spec rmin rmax qmin qmax sym h0 h1 h2
  exact ⟨(z, s), heq⟩

/-- Witness for C10 at an unordered all-wrong-sign range (`rmin = 5 > rmax = -3`). -/
theorem compute_scale_zp_total_witness :
    ∃ r, compute_scale_zp 5 (-3) (-128) 127 true = .ok r :=
  compute_scale_zp_total 5 (-3) (-128) 127 true (by decide) (by decide) (by decide)

/-- With a nonzero finite scale, the modelled numpy pipeline of the integer
branch computes exactly the specification's per-element formula. -/
theorem int_elem_eval (t : TensorProto) (s : ℚ) (hs : s ≠ 0) (zp : ℤ)
    (lo hi : ℚ) (x : ℚ) :
    pCastInt t (pClip (pAddZ (pRound (pdiv (.fin x) (.fin s))) zp) lo hi) =
      specIntTransformElem t s zp lo hi x := by
  simp [pdiv, hs, pRound, pAddZ, pClip, pCastInt, specIntTransformElem]

/-- For int8 clip bounds derived from the symmetric table intersected with
optional `low`/`high`, a nonempty clip interval keeps every transformed
element in `[-127, 127]`. -/
theorem int8_elem_range (s : ℚ) (zp : ℤ) (low high : Option ℚ)
    (hcl : cliplowOf (-127) low ≤ cliphighOf 127 high) (x : ℚ) :
    -127 ≤ specIntTransformElem .INT8 s zp (cliplowOf (-127) low) (cliphighOf 127 high) x ∧
      specIntTransformElem .INT8 s zp (cliplowOf (-127) low) (cliphighOf 127 high) x ≤ 127 := by
  have hlo : (-127 : ℚ) ≤ cliplowOf (-127) low := by
    cases low with
    | none => simp [cliplowOf]
    | some l =>
        refine le_trans (le_of_eq ?_) (le_max_left _ l)
        push_cast
        rfl
  have hhi : cliphighOf 127 high ≤ (127 : ℚ) := by
    cases high with
    | none => simp [cliphighOf]
    | some h =>
        refine le_trans (min_le_left _ h) (le_of_eq ?_)
        push_cast
        rfl
  unfold specIntTransformElem
  have h1 : cliplowOf (-127) low ≤
      min (cliphighOf 127 high)
        (max (cliplowOf (-127) low) (((roundHalfEven (x / s) : ℤ) : ℚ) + (zp : ℚ))) :=
    le_min hcl (le_max_left _ _)
  have h2 : min (cliphighOf 127 high)
      (max (cliplowOf (-127) low) (((roundHalfEven (x / s) : ℤ) : ℚ) + (zp : ℚ))) ≤
        cliphighOf 127 high := min_le_left _ _
  obtain ⟨ht1, ht2⟩ := truncQ_bounds (-127) 127 _
    (by push_cast; linarith) (by push_cast; linarith)
  rw [wrapCast_int8_id _ (by omega) ht2]
  exact ⟨ht1, ht2⟩

/-- C4 (counterexample): with a supplied `high = -128`, the clip interval is
empty (`max(qmin, low) = -127 > min(qmax, high) = -128`), numpy's clip
returns the upper argument, and the int8 output element is `-128`, outside
`[-127, 127]`. -/
theorem quantize_nparray_int8_counterexample :
    quantize_nparray .INT8 [0] (.fin 1) 0 none (some (-128)) =
      .ok (.ints .INT8 [-128]) ∧ ¬((-127 : ℤ) ≤ -128) := by
  constructor
  · decide
  · decide

/-- C4 (amended): for every integer kind and nonzero scale,
`quantize_nparray` computes `round(x / scale) + zero_point` elementwise,
clips to `[max(qmin, low), min(qmax, high)]` with `(qmin, qmax)` looked up
with `reduce_range = false, symmetric = true`, and casts to the storage
dtype; for INT8 the outputs lie in `[-127, 127]` whenever the clip interval
is non-empty (in particular whenever `low`/`high` are absent). -/
theorem quantize_nparray_int_formula :
    ∀ (t : TensorProto) (arr : List ℚ) (s : ℚ) (zp : ℤ) (low high : Option ℚ)
      (qmin qmax : ℤ),
      t ≠ .FLOAT8E4M3FN → s ≠ 0 →
      get_qmin_qmax_for_qType t false true = .ok (qmin, qmax) →
      quantize_nparray t arr (.fin s) zp low high =
        .ok (.ints t (arr.map
          (specIntTransformElem t s zp (cliplowOf qmin low) (cliphighOf qmax high)))) ∧
      (t = .INT8 → cliplowOf qmin low ≤ cliphighOf qmax high →
        ∀ y ∈ arr.map
            (specIntTransformElem t s zp (cliplowOf qmin low) (cliphighOf qmax high)),
          -127 ≤ y ∧ y ≤ 127) := by
  intro t arr s zp low high qmin qmax hF8 hs htab
  have helem : ∀ lo hi : ℚ,
      (fun x => pCastInt t (pClip (pAddZ (pRound (pdiv (.fin x) (.fin s))) zp) lo hi)) =
        specIntTransformElem t s zp lo hi :=
    fun lo hi => funext fun x => int_elem_eval t s hs zp lo hi x
  cases t with
  | FLOAT8E4M3FN => exact absurd rfl hF8
  | INT8 =>
      have hq : qmin = -127 ∧ qmax = 127 := by
        rw [show get_qmin_qmax_for_qType .INT8 false true = .ok (-127, 127) from rfl] at htab
        injection htab with h
        injection h with h1 h2
        exact ⟨h1.symm, h2.symm⟩
      obtain ⟨rfl, rfl⟩ := hq
      refine ⟨?_, ?_⟩
      · simp only [quantize_nparray, htab, helem]
      · intro _ hcl y hy
        rw [List.mem_map] at hy
        obtain ⟨x, -, rfl⟩ := hy
        exact int8_elem_range s zp low high hcl x
  | UINT8 =>
      have hq : qmin = 0 ∧ qmax = 255 := by
        rw [show get_qmin_qmax_for_qType .UINT8 false true = .ok (0, 255) from rfl] at htab
        injection htab with h
        injection h with h1 h2
        exact ⟨h1.symm, h2.symm⟩
      obtain ⟨rfl, rfl⟩ := hq
      exact ⟨by simp only [quantize_nparray, htab, helem], fun h => by cases h⟩
  | INT16 =>
      have hq : qmin = -32767 ∧ qmax = 32767 := by
        rw [show get_qmin_qmax_for_qType .INT16 false true = .ok (-32767, 32767) from rfl] at htab
        injection htab with h
        injection h with h1 h2
        exact ⟨h1.symm, h2.symm⟩
      obtain ⟨rfl, rfl⟩ := hq
      exact ⟨by simp only [quantize_nparray, htab, helem], fun h => by cases h⟩
  | UINT16 =>
      have hq : qmin = 0 ∧ qmax = 65535 := by
        rw [show get_qmin_qmax_for_qType .UINT16 false true = .ok (0, 65535) from rfl] at htab
        injection htab with h
        injection h with h1 h2
        exact ⟨h1.symm, h2.symm⟩
      obtain ⟨rfl, rfl⟩ := hq
      exact ⟨by simp only [quantize_nparray, htab, helem], fun h => by cases h⟩

/-- Witness for C4: int8 transform of `[300, -5]` with unit scale, no
`low`/`high`. -/
theorem quantize_nparray_int_formula_witness :
    quantize_nparray .INT8 [300, -5] (.fin 1) 0 none none =
      .ok (.ints .INT8 ([(300 : ℚ), -5].map
        (specIntTransformElem .INT8 1 0 (cliplowOf (-127) none) (cliphighOf 127 none)))) :=
  (quantize_nparray_int_formula .INT8 [300, -5] 1 0 none none (-127) 127
    (by decide) (by decide) (by decide)).1

/-- The integer branch of `quantize_nparray` (no `low`/`high`) always
returns an integer buffer of the same kind. -/
theorem quantize_nparray_int_ok (t : TensorProto) (h : t ≠ .FLOAT8E4M3FN)
    (arr : List ℚ) (scale : PFloat) (zp : ℤ) :
    ∃ l, quantize_nparray t arr scale zp none none = .ok (.ints t l) := by
  cases t with
  | FLOAT8E4M3FN => exact absurd rfl h
  | INT8 => exact ⟨_, rfl⟩
  | UINT8 => exact ⟨_, rfl⟩
  | INT16 => exact ⟨_, rfl⟩
  | UINT16 => exact ⟨_, rfl⟩

/-- C2 core: on every successful call with non-empty data, the first two
returned components are `pythonMin data` and `pythonMax data`. -/
theorem quantize_data_returns_python_min_max (data : List ℚ) (t : TensorProto)
    (sym rr : Bool) (rmin rmax : ℚ) (zp : ℤ) (s : PFloat) (qd : QBuffer)
    (hd : data ≠ []) (hok : quantize_data data t sym rr = .ok (rmin, rmax, zp, s, qd)) :
    rmin = pythonMin data ∧ rmax = pythonMax data := by
  have hne : data.isEmpty = false := by
    cases data
    · exact absurd rfl hd
    · rfl
  cases t with
  | FLOAT8E4M3FN =>
      simp only [quantize_data, hne, Bool.false_eq_true, if_false,
        compute_scale_zp_float8, quantize_nparray, ne_eq] at hok
      cases rr with
      | true => exact Except.noConfusion hok
      | false =>
          simp only [if_false, Bool.false_eq_true] at hok
          split at hok
          · exact Except.noConfusion hok
          · split at hok
            · exact Except.noConfusion hok
            · rw [Except.ok.injEq, Prod.mk.injEq, Prod.mk.injEq] at hok
              exact ⟨hok.1.symm, hok.2.1.symm⟩
  | INT8 =>
      simp only [quantize_data, hne, Bool.false_eq_true, if_false] at hok
      split at hok
      · exact Except.noConfusion hok
      · split at hok
        · exact Except.noConfusion hok
        · obtain ⟨l, hl⟩ := quantize_nparray_int_ok .INT8 (by decide) data _ _
          rw [hl, Except.ok.injEq, Prod.mk.injEq, Prod.mk.injEq] at hok
          exact ⟨hok.1.symm, hok.2.1.symm⟩
  | UINT8 =>
      simp only [quantize_data, hne, Bool.false_eq_true, if_false] at hok
      split at hok
      · exact Except.noConfusion hok
      · split at hok
        · exact Except.noConfusion hok
        · obtain ⟨l, hl⟩ := quantize_nparray_int_ok .UINT8 (by decide) data _ _
          rw [hl, Except.ok.injEq, Prod.mk.injEq, Prod.mk.injEq] at hok
          exact ⟨hok.1.symm, hok.2.1.symm⟩
  | INT16 =>
      simp only [quantize_data, hne, Bool.false_eq_true, if_false] at hok
      split at hok
      · exact Except.noConfusion hok
      · split at hok
        · exact Except.noConfusion hok
        · obtain ⟨l, hl⟩ := quantize_nparray_int_ok .INT16 (by decide) data _ _
          rw [hl, Except.ok.injEq, Prod.mk.injEq, Prod.mk.injEq] at hok
          exact ⟨hok.1.symm, hok.2.1.symm⟩
  | UINT16 =>
      simp only [quantize_data, hne, Bool.false_eq_true, if_false] at hok
      split at hok
      · exact Except.noConfusion hok
      · split at hok
        · exact Except.noConfusion hok
        · obtain ⟨l, hl⟩ := quantize_nparray_int_ok .UINT16 (by decide) data _ _
          rw [hl, Except.ok.injEq, Prod.mk.injEq, Prod.mk.injEq] at hok
          exact ⟨hok.1.symm, hok.2.1.symm⟩

/-- C2: for non-empty input, every successful `quantize_data` call returns
as its first two components exactly the minimum and the maximum of the
input data, for every kind and flag combination. -/
theorem quantize_data_min_max :
    ∀ (data : List ℚ) (t : TensorProto) (sym rr : Bool)
      (rmin rmax : ℚ) (zp : ℤ) (s : PFloat) (qd : QBuffer),
      data ≠ [] →
      quantize_data data t sym rr = .ok (rmin, rmax, zp, s, qd) →
      (rmin ∈ data ∧ ∀ x ∈ data, rmin ≤ x) ∧
      (rmax ∈ data ∧ ∀ x ∈ data, x ≤ rmax) := by
  intro data t sym rr rmin rmax zp s qd hd hok
  obtain ⟨h1, h2⟩ :=
    quantize_data_returns_python_min_max data t sym rr rmin rmax zp s qd hd hok
  obtain ⟨x, xs, rfl⟩ := List.exists_cons_of_ne_nil hd
  subst h1
  subst h2
  exact ⟨pythonMin_spec x xs, pythonMax_spec x xs⟩

/-- Witness for C2: `quantize_data([2,1], UINT8, symmetric=False)` returns
`rmin = 1`, `rmax = 2`. -/
theorem quantize_data_min_max_witness :
    (((1 : ℚ) ∈ [(2 : ℚ), 1] ∧ ∀ x ∈ [(2 : ℚ), 1], (1 : ℚ) ≤ x) ∧
      ((2 : ℚ) ∈ [(2 : ℚ), 1] ∧ ∀ x ∈ [(2 : ℚ), 1], x ≤ (2 : ℚ))) :=
  quantize_data_min_max [2, 1] .UINT8 false false 1 2 0 (.fin (2 / 255))
    (.ints .UINT8 [255, 128]) (by decide) (by decide)

/-- Any successful range lookup yields `qmin ≤ 0 ≤ qmax` and `qmin < qmax`. -/
theorem range_entry_sound (t : TensorProto) (rr sym : Bool) (a b : ℤ)
    (h : get_qmin_qmax_for_qType t rr sym = .ok (a, b)) :
    a ≤ 0 ∧ 0 ≤ b ∧ a < b := by
  have hs := range_table_sound t rr sym
  rw [h] at hs
  simpa [rangeSoundB, decide_eq_true_eq] using hs

/-- Integer-path parameter invariant: any successful integer-kind call
returns a positive finite scale and a zero point inside the range table
entry used by the call. -/
theorem quantize_data_int_params (data : List ℚ) (t : TensorProto) (sym rr : Bool)
    (rmin rmax : ℚ) (zp : ℤ) (s : PFloat) (qd : QBuffer)
    (hF8 : t ≠ .FLOAT8E4M3FN)
    (hok : quantize_data data t sym rr = .ok (rmin, rmax, zp, s, qd)) :
    ∃ sq : ℚ, s = .fin sq ∧ 0 < sq ∧
      ∀ qmin qmax, get_qmin_qmax_for_qType t rr sym = .ok (qmin, qmax) →
        qmin ≤ zp ∧ zp ≤ qmax := by
  cases t
  case FLOAT8E4M3FN => exact absurd rfl hF8
  all_goals
    cases hE : data.isEmpty with
    | true =>
        simp only [quantize_data, hE, if_true] at hok
        split at hok
        · exact Except.noConfusion hok
        · rw [Except.ok.injEq, Prod.mk.injEq, Prod.mk.injEq, Prod.mk.injEq,
            Prod.mk.injEq] at hok
          obtain ⟨-, -, h3, h4, -⟩ := hok
          refine ⟨1, h4.symm, one_pos, ?_⟩
          intro qmin qmax htab
          obtain ⟨hb1, hb2, hb3⟩ := range_entry_sound _ _ _ _ _ htab
          omega
    | false =>
        simp only [quantize_data, hE, Bool.false_eq_true, if_false] at hok
        split at hok
        · exact Except.noConfusion hok
        · rename_i qmin1 qmax1 heq
          obtain ⟨hb1, hb2, hb3⟩ := range_entry_sound _ _ _ _ _ heq
          obtain ⟨z, sc, heqc, hz1, hz2, hsc⟩ :=
            compute_scale_zp_spec (pythonMin data) (pythonMax data) qmin1 qmax1 sym
              hb1 hb2 hb3
          split at hok
          · rename_i e heq2
            rw [heqc] at heq2
            exact Except.noConfusion heq2
          · rename_i z1 sc1 heq2
            rw [heqc, Except.ok.injEq, Prod.mk.injEq] at heq2
            obtain ⟨hz, hsceq⟩ := heq2
            split at hok
            · exact Except.noConfusion hok
            · rename_i qd1 heq3
              rw [Except.ok.injEq, Prod.mk.injEq, Prod.mk.injEq, Prod.mk.injEq,
                Prod.mk.injEq] at hok
              obtain ⟨-, -, h3, h4, -⟩ := hok
              refine ⟨sc1, h4.symm, hsceq ▸ hsc, ?_⟩
              intro qmin qmax htab
              rw [heq, Except.ok.injEq, Prod.mk.injEq] at htab
              obtain ⟨hq1, hq2⟩ := htab
              omega

/-- On the narrow-float path the zero point of every successful call is 0. -/
theorem quantize_data_f8_zp (data : List ℚ) (sym rr : Bool)
    (rmin rmax : ℚ) (zp : ℤ) (s : PFloat) (qd : QBuffer)
    (hok : quantize_data data .FLOAT8E4M3FN sym rr = .ok (rmin, rmax, zp, s, qd)) :
    zp = 0 := by
  simp only [quantize_data, compute_scale_zp_float8, quantize_nparray, ne_eq] at hok
  cases rr with
  | true => exact Except.noConfusion hok
  | false =>
      simp only [if_false, Bool.false_eq_true] at hok
      split at hok
      · exact Except.noConfusion hok
      · split at hok
        · exact Except.noConfusion hok
        · rw [Except.ok.injEq, Prod.mk.injEq, Prod.mk.injEq, Prod.mk.injEq] at hok
          exact hok.2.2.1.symm

/-- C7 (counterexample): the empty-input narrow-float call succeeds and
returns `scale = NaN`, which is neither a positive real number nor the
degenerate `1.0`. -/
theorem quantize_data_params_counterexample :
    quantize_data [] .FLOAT8E4M3FN false false = .ok (0, 0, 0, .nan, .f8 []) ∧
      ∀ q : ℚ, (PFloat.nan : PFloat) ≠ .fin q :=
  ⟨by decide, fun _ h => PFloat.noConfusion h⟩

/-- C7 (amended): every successful `quantize_data` call returns, for the
integer kinds, a finite positive scale (1.0 in the degenerate and empty
cases) with an integer zero point inside the `[qmin, qmax]` entry used by
the call; for the narrow-float kind the zero point is exactly 0, but the
scale equals `std(data) / std_f8`, which is NaN for empty input (and 0 for
constant input) rather than a positive real. -/
theorem quantize_data_params_invariant :
    ∀ (data : List ℚ) (t : TensorProto) (sym rr : Bool)
      (rmin rmax : ℚ) (zp : ℤ) (s : PFloat) (qd : QBuffer),
      quantize_data data t sym rr = .ok (rmin, rmax, zp, s, qd) →
      (t ≠ .FLOAT8E4M3FN →
        ∃ sq : ℚ, s = .fin sq ∧ 0 < sq ∧
          ∀ qmin qmax, get_qmin_qmax_for_qType t rr sym = .ok (qmin, qmax) →
            qmin ≤ zp ∧ zp ≤ qmax) ∧
      (t = .FLOAT8E4M3FN → zp = 0) := by
  intro data t sym rr rmin rmax zp s qd hok
  constructor
  · intro hF8
    exact quantize_data_int_params data t sym rr rmin rmax zp s qd hF8 hok
  · intro hF8
    subst hF8
    exact quantize_data_f8_zp data sym rr rmin rmax zp s qd hok

/-- Witness for C7 at `quantize_data([1,2,3], INT8, symmetric=True)`. -/
theorem quantize_data_params_invariant_witness :
    ∃ sq : ℚ, (PFloat.fin (3 / 127) : PFloat) = .fin sq ∧ 0 < sq ∧
      ∀ qmin qmax, get_qmin_qmax_for_qType .INT8 false true = .ok (qmin, qmax) →
        qmin ≤ (0 : ℤ) ∧ (0 : ℤ) ≤ qmax :=
  (quantize_data_params_invariant [1, 2, 3] .INT8 true false 1 3 0 (.fin (3 / 127))
    (.ints .INT8 [42, 85, 127]) (by decide)).1 (by decide)

/-- C8: on the narrow-float path with `reduce_range = false`, the call
fails — with the NaN error carrying the observed data range and quantized
byte range — exactly when some output byte has low 7 bits equal to 127;
otherwise the quantized buffer is returned with the derived parameters. -/
theorem quantize_data_float8_nan_guard :
    ∀ (data : List ℚ) (sym : Bool),
      ((∃ b ∈ f8TransformBytes data, b % 128 = 127) →
        quantize_data data .FLOAT8E4M3FN sym false =
          .error (.producedNaN (pythonMin data) (pythonMax data)
            (natMin (f8TransformBytes data)) (natMax (f8TransformBytes data)))) ∧
      (¬(∃ b ∈ f8TransformBytes data, b % 128 = 127) →
        quantize_data data .FLOAT8E4M3FN sym false =
          .ok (if data.isEmpty then 0 else pythonMin data,
            if data.isEmpty then 0 else pythonMax data, 0,
            pdiv (numpy_std data) (numpy_std FLOAT8_DISTRIBUTION_E4M3FN),
            .f8 (f8TransformBytes data))) := by
  intro data sym
  have hq : quantize_nparray .FLOAT8E4M3FN data
      (pdiv (numpy_std data) (numpy_std FLOAT8_DISTRIBUTION_E4M3FN)) 0 none none =
      .ok (.f8 (f8TransformBytes data)) := by
    simp [quantize_nparray, f8TransformBytes]
  have hiff : hasNaNF8 (.f8 (f8TransformBytes data)) = true ↔
      ∃ b ∈ f8TransformBytes data, b % 128 = 127 := by
    simp [hasNaNF8, qbytes, List.any_eq_true]
  constructor
  · intro hex
    simp only [quantize_data, compute_scale_zp_float8, Bool.false_eq_true, if_false, hq]
    rw [if_pos (hiff.mpr hex)]
    simp [qbytes]
  · intro hnex
    simp only [quantize_data, compute_scale_zp_float8, Bool.false_eq_true, if_false, hq]
    rw [if_neg (fun hc => hnex (hiff.mp hc))]

/-- Witness for C8: the empty input produces no byte with low 7 bits 127,
so the call returns the transformed (empty) buffer with the derived scale. -/
theorem quantize_data_float8_nan_guard_witness :
    quantize_data [] .FLOAT8E4M3FN false false =
      .ok (if List.isEmpty ([] : List ℚ) then 0 else pythonMin [],
        if List.isEmpty ([] : List ℚ) then 0 else pythonMax [], 0,
        pdiv (numpy_std []) (numpy_std FLOAT8_DISTRIBUTION_E4M3FN),
        .f8 (f8TransformBytes [])) :=
  (quantize_data_float8_nan_guard [] false).2 (by decide)
